import Mathlib

/-!
Verification of the flow-transform modules of `modules.py` (nix-tts).

Tensors of shape (batch, channel, time) are embedded as functions
`Fin b → Fin c → Fin t → ℝ`; masks have shape (batch, 1, time) in the
source and are embedded as `Fin b → Fin t → ℝ`, broadcast over the
channel axis exactly as the source broadcasts `x_mask`.

Floating-point arithmetic is embedded as exact real arithmetic; the
transcendental functions used by the source (`torch.log`, `torch.exp`,
`sqrt`, `gelu`) are the corresponding real functions.
-/

open scoped BigOperators

/-- A (batch, channel, time) tensor. -/
def Tensor (b c t : ℕ) : Type := Fin b → Fin c → Fin t → ℝ

/-- A (batch, 1, time) mask tensor, broadcast over the channel axis. -/
def Mask (b t : ℕ) : Type := Fin b → Fin t → ℝ

/-- Pointwise multiplication `x * x_mask` with the mask broadcast over
the channel axis, as in `x * x_mask` in the source. -/
noncomputable def applyMask {b c t : ℕ} (x : Tensor b c t) (m : Mask b t) :
    Tensor b c t :=
  fun i j k => x i j k * m i k

/-- The all-ones tensor. -/
def onesTensor (b c t : ℕ) : Tensor b c t := fun _ _ _ => 1

/-- The all-ones mask. -/
def onesMask (b t : ℕ) : Mask b t := fun _ _ => 1

/-! ### Log (modules.py lines 180-188) -/

/-- `Log.forward` with `reverse=False`:
`y = torch.log(torch.clamp_min(x, 1e-5)) * x_mask`,
`logdet = torch.sum(-y, [1, 2])`. -/
noncomputable def logForward {b c t : ℕ} (x : Tensor b c t) (xm : Mask b t) :
    Tensor b c t × (Fin b → ℝ) :=
  let y : Tensor b c t := fun i j k => Real.log (max (x i j k) 1e-5) * xm i k
  (y, fun i => ∑ j, ∑ k, -(y i j k))

/-- `Log.forward` with `reverse=True`: `x = torch.exp(x) * x_mask`. -/
noncomputable def logReverse {b c t : ℕ} (x : Tensor b c t) (xm : Mask b t) :
    Tensor b c t :=
  fun i j k => Real.exp (x i j k) * xm i k

/-! ### ElementwiseAffine (modules.py lines 191-206) -/

/-- The learned parameters of `ElementwiseAffine`: `m` and `logs`, each of
shape (channels, 1), broadcast over batch and time. -/
structure EAParams (c : ℕ) where
  m : Fin c → ℝ
  logs : Fin c → ℝ

/-- `ElementwiseAffine.forward` with `reverse=False`:
`y = (m + exp(logs) * x) * x_mask`, `logdet = sum(logs * x_mask, [1,2])`. -/
noncomputable def eaForward {b c t : ℕ} (p : EAParams c) (x : Tensor b c t)
    (xm : Mask b t) : Tensor b c t × (Fin b → ℝ) :=
  (fun i j k => (p.m j + Real.exp (p.logs j) * x i j k) * xm i k,
   fun i => ∑ j, ∑ k : Fin t, p.logs j * xm i k)

/-- `ElementwiseAffine.forward` with `reverse=True`:
`x = (x - m) * exp(-logs) * x_mask`. -/
noncomputable def eaReverse {b c t : ℕ} (p : EAParams c) (x : Tensor b c t)
    (xm : Mask b t) : Tensor b c t :=
  fun i j k => (x i j k - p.m j) * Real.exp (-p.logs j) * xm i k

/-- The ElementwiseAffine inverse as the specification's table writes it:
`x = (y/mask − m)·exp(−logs)·mask`.  Real division by a zero mask value is
undefined in floating point (it produces `inf`, and `inf * 0 = NaN`), so a
position whose mask value is `0` is embedded as `none`. -/
noncomputable def eaReverseSpec {b c t : ℕ} (p : EAParams c) (x : Tensor b c t)
    (xm : Mask b t) : Fin b → Fin c → Fin t → Option ℝ :=
  fun i j k =>
    if xm i k = 0 then none
    else some ((x i j k / xm i k - p.m j) * Real.exp (-p.logs j) * xm i k)

/-! ### Flip (modules.py lines 256-263) -/

/-- `Flip.forward` with `reverse=False`: `x = torch.flip(x, [1])` (reverse the
channel axis), `logdet = torch.zeros(x.size(0))`. The mask argument is
absorbed by `*args` and ignored. -/
noncomputable def flipForward {b c t : ℕ} (x : Tensor b c t) :
    Tensor b c t × (Fin b → ℝ) :=
  (fun i j k => x i (Fin.rev j) k, fun _ => 0)

/-- `Flip.forward` with `reverse=True`: `x = torch.flip(x, [1])` only. -/
noncomputable def flipReverse {b c t : ℕ} (x : Tensor b c t) : Tensor b c t :=
  fun i j k => x i (Fin.rev j) k

/-! ### DDSConv (modules.py lines 266-307) and its convolution primitives -/

/-- Modelled from the spec: `get_padding(kernel_size, dilation)` is consumed
from the external `commons` module (not part of the flow sources); §6 gives
its contract as `dilation*(kernel_size-1)/2`. -/
def get_padding (kernel_size dilation : ℕ) : ℕ :=
  dilation * (kernel_size - 1) / 2

/-- The dilation of layer `i` of a `DDSConv`: `dilation = kernel_size ** i`. -/
def ddsDilation (kernel_size i : ℕ) : ℕ := kernel_size ^ i

/-- The padding of layer `i` of a `DDSConv`:
`padding=get_padding(kernel_size, dilation)`. -/
def ddsPadding (kernel_size i : ℕ) : ℕ :=
  get_padding kernel_size (ddsDilation kernel_size i)

/-- Reading a zero-padded tensor at a (possibly out-of-range) time index,
as a 1-d convolution with `padding > 0` does. -/
noncomputable def getPadded {b c t : ℕ} (x : Tensor b c t) (i : Fin b)
    (j : Fin c) (z : ℤ) : ℝ :=
  if h : 0 ≤ z ∧ z < t then x i j ⟨z.toNat, by omega⟩ else 0

/-- `nn.Conv1d(channels, channels, kernel_size, groups=channels, dilation,
padding)`: a depthwise 1-d convolution, one kernel row per channel. -/
noncomputable def convDepthwise {b c t : ℕ} (K dil pad : ℕ)
    (w : Fin c → Fin K → ℝ) (bias : Fin c → ℝ) (x : Tensor b c t) :
    Tensor b c t :=
  fun i j k =>
    bias j + ∑ q : Fin K, w j q * getPadded x i j ((k : ℤ) + (q : ℤ) * dil - pad)

/-- `nn.Conv1d(cin, cout, 1)`: a pointwise (1×1) convolution. -/
noncomputable def conv1x1 {b cin cout t : ℕ} (w : Fin cout → Fin cin → ℝ)
    (bias : Fin cout → ℝ) (x : Tensor b cin t) : Tensor b cout t :=
  fun i j k => bias j + ∑ q, w j q * x i q k

/-- The `LayerNorm` of modules.py lines 12-17: `nn.LayerNorm(channels)`
applied after transposing axes 1 and 2 and transposed back, i.e. a
normalization over the channel axis per (batch, time) position, with the
default `eps = 1e-5`, biased variance, and learned per-channel scale `g`
and shift `bb`. -/
noncomputable def layerNorm {b c t : ℕ} (g bb : Fin c → ℝ) (x : Tensor b c t) :
    Tensor b c t :=
  fun i j k =>
    (x i j k - (∑ q, x i q k) / c) /
        Real.sqrt ((∑ q, (x i q k - (∑ r, x i r k) / c) ^ 2) / c + 1e-5) *
        g j +
      bb j

/-- The Gauss error function, used by the exact (`erf`-based) `F.gelu`. -/
noncomputable def erf (v : ℝ) : ℝ :=
  (2 / Real.sqrt Real.pi) * ∫ s in (0:ℝ)..v, Real.exp (-(s ^ 2))

/-- `F.gelu` in its default exact form: `v * Φ(v)` with `Φ` the standard
normal cdf. -/
noncomputable def gelu (v : ℝ) : ℝ := v * ((1 + erf (v / Real.sqrt 2)) / 2)

/-- The learned parameters of one `DDSConv` layer: the depthwise convolution
(`convs_sep[i]`), the pointwise convolution (`convs_1x1[i]`) and the two
layer norms (`norms_1[i]`, `norms_2[i]`). -/
structure DDSConvLayerParams (c K : ℕ) where
  sepW : Fin c → Fin K → ℝ
  sepB : Fin c → ℝ
  pointW : Fin c → Fin c → ℝ
  pointB : Fin c → ℝ
  norm1g : Fin c → ℝ
  norm1b : Fin c → ℝ
  norm2g : Fin c → ℝ
  norm2b : Fin c → ℝ

/-- The learned parameters of a `DDSConv(channels, kernel_size, n_layers)`. -/
structure DDSConvParams (c K n : ℕ) where
  layers : Fin n → DDSConvLayerParams c K

/-- The residual branch plus residual add of one `DDSConv` layer:
`y = convs_sep[i](x); y = norms_1[i](y); y = gelu(y); y = convs_1x1[i](y);
y = norms_2[i](y); y = gelu(y); y = drop(y); x = x + y`.
Every in-repo instantiation proved about below (`ConvFlow`, `DSResBlock`)
uses `p_dropout=0.`, for which `nn.Dropout` is the identity, so `drop` is
embedded as the identity. -/
noncomputable def ddsConvLayer {b c t K : ℕ} (dil pad : ℕ)
    (L : DDSConvLayerParams c K) (x : Tensor b c t) : Tensor b c t :=
  let y := convDepthwise K dil pad L.sepW L.sepB x
  let y := layerNorm L.norm1g L.norm1b y
  let y := fun i j k => gelu (y i j k)
  let y := conv1x1 L.pointW L.pointB y
  let y := layerNorm L.norm2g L.norm2b y
  let y := fun i j k => gelu (y i j k)
  fun i j k => x i j k + y i j k

/-- `x * x_mask` when a mask is supplied (`x_mask is not None`), `x`
otherwise. -/
noncomputable def maybeMask {b c t : ℕ} (x : Tensor b c t) :
    Option (Mask b t) → Tensor b c t
  | none => x
  | some m => applyMask x m

/-- `DDSConv.forward(x, x_mask, g)`: add `g` if supplied, then for each layer
`i`: mask, residual layer `i` (dilation `kernel_size ** i`, padding
`get_padding(kernel_size, dilation)`), mask again. -/
noncomputable def ddsConvForward {b c t K n : ℕ} (P : DDSConvParams c K n)
    (x : Tensor b c t) (xm : Option (Mask b t)) (g : Option (Tensor b c t)) :
    Tensor b c t :=
  let xg := match g with
    | some gg => fun i j k => x i j k + gg i j k
    | none => x
  (List.finRange n).foldl
    (fun acc i =>
      maybeMask
        (ddsConvLayer (ddsDilation K i.val) (ddsPadding K i.val) (P.layers i)
          (maybeMask acc xm))
        xm)
    xg

/-! ### DSResBlock (modules.py lines 171-177) -/

/-- The parameters of a `DSResBlock`: its inner
`DDSConv(channels, kernel_size, n_layers=3, p_dropout=0.)`. -/
structure DSResBlockParams (c K : ℕ) where
  dds_conv : DDSConvParams c K 3

/-- `DSResBlock.forward(x, x_mask)`:
`return self.dds_conv(x, x_mask=None)` — the mask argument is dropped and
no conditioning is passed. -/
noncomputable def dsResBlockForward {b c t K : ℕ} (P : DSResBlockParams c K)
    (x : Tensor b c t) (xm : Option (Mask b t)) : Tensor b c t :=
  ddsConvForward P.dds_conv x none none

/-! ### ConvFlow (modules.py lines 209-253) -/

/-- Modelled from the spec: the piecewise-rational-quadratic spline kernel
`transforms.piecewise_rational_quadratic_transform` is an external
collaborator (§1, §6), treated as a black-box bijection over a bounded
interval with linear tails.  Each direction maps the three unnormalized
parameter vectors (`K` widths, `K` heights, `K-1` interior derivatives),
the tail bound and a scalar to the transformed scalar and its
log-absolute-derivative. -/
structure SplineKernel (numBins : ℕ) where
  fwd : (Fin numBins → ℝ) → (Fin numBins → ℝ) → (Fin (numBins - 1) → ℝ) →
    ℝ → ℝ → ℝ × ℝ
  inv : (Fin numBins → ℝ) → (Fin numBins → ℝ) → (Fin (numBins - 1) → ℝ) →
    ℝ → ℝ → ℝ × ℝ

/-- The learned parameters of a `ConvFlow`: `pre` (1×1 convolution from
`half_channels` to `filter_channels`), `convs` (a `DDSConv` with
`p_dropout=0.`) and `proj` (1×1 convolution from `filter_channels` to
`half_channels * (num_bins * 3 - 1)`). -/
structure ConvFlowParams (half fc K n numBins : ℕ) where
  preW : Fin fc → Fin half → ℝ
  preB : Fin fc → ℝ
  convs : DDSConvParams fc K n
  projW : Fin (half * (numBins * 3 - 1)) → Fin fc → ℝ
  projB : Fin (half * (numBins * 3 - 1)) → ℝ

/-- First half of `torch.split(x, [half_channels]*2, 1)`. -/
noncomputable def splitLo {b t half : ℕ} (x : Tensor b (half + half) t) :
    Tensor b half t :=
  fun i j k => x i (Fin.castAdd half j) k

/-- Second half of `torch.split(x, [half_channels]*2, 1)`. -/
noncomputable def splitHi {b t half : ℕ} (x : Tensor b (half + half) t) :
    Tensor b half t :=
  fun i j k => x i (Fin.natAdd half j) k

/-- `torch.cat([x0, x1], 1)`: concatenation along the channel axis. -/
noncomputable def catChannels {b t c1 c2 : ℕ} (x : Tensor b c1 t)
    (y : Tensor b c2 t) : Tensor b (c1 + c2) t :=
  fun i j k =>
    if h : (j : ℕ) < c1 then x i ⟨j, h⟩ k
    else y i ⟨(j : ℕ) - c1, by have hj := j.isLt; omega⟩ k

/-- Index arithmetic of `h.reshape(b, c, -1, t)`: channel `j*(3K-1)+p` of the
flat tensor is entry `(j, p)` of the reshaped one. -/
theorem reshape_idx_lt {half M : ℕ} (j : Fin half) (p : Fin M) :
    j.val * M + p.val < half * M := by
  have h1 : j.val * M + M ≤ half * M := by
    have h2 : (j.val + 1) * M ≤ half * M := Nat.mul_le_mul_right M j.isLt
    simpa [Nat.succ_mul] using h2
  omega

/-- The parameter-prediction pipeline of `ConvFlow.forward`:
`h = self.pre(x0); h = self.convs(h, x_mask, g=g); h = self.proj(h) * x_mask`
followed by `h.reshape(b, c, -1, t).permute(0, 1, 3, 2)`, so that
`(i, j, k, p)` reads flat channel `j * (num_bins*3 - 1) + p` at time `k`. -/
noncomputable def convFlowH {b t half fc K n numBins : ℕ}
    (P : ConvFlowParams half fc K n numBins) (x0 : Tensor b half t)
    (xm : Mask b t) (g : Option (Tensor b fc t)) :
    Fin b → Fin half → Fin t → Fin (numBins * 3 - 1) → ℝ :=
  let h1 := conv1x1 P.preW P.preB x0
  let h2 := ddsConvForward P.convs h1 (some xm) g
  let h3 := applyMask (conv1x1 P.projW P.projB h2) xm
  fun i j k p => h3 i ⟨j.val * (numBins * 3 - 1) + p.val, reshape_idx_lt j p⟩ k

/-- `unnormalized_widths = h[..., :self.num_bins] / math.sqrt(self.filter_channels)`. -/
noncomputable def convFlowWidths {b t half fc K n numBins : ℕ}
    (P : ConvFlowParams half fc K n numBins) (x0 : Tensor b half t)
    (xm : Mask b t) (g : Option (Tensor b fc t)) :
    Fin b → Fin half → Fin t → Fin numBins → ℝ :=
  fun i j k q =>
    convFlowH P x0 xm g i j k ⟨q.val, by have hq := q.isLt; omega⟩ /
      Real.sqrt fc

/-- `unnormalized_heights = h[..., self.num_bins:2*self.num_bins] / math.sqrt(self.filter_channels)`. -/
noncomputable def convFlowHeights {b t half fc K n numBins : ℕ}
    (P : ConvFlowParams half fc K n numBins) (x0 : Tensor b half t)
    (xm : Mask b t) (g : Option (Tensor b fc t)) :
    Fin b → Fin half → Fin t → Fin numBins → ℝ :=
  fun i j k q =>
    convFlowH P x0 xm g i j k ⟨numBins + q.val, by have hq := q.isLt; omega⟩ /
      Real.sqrt fc

/-- `unnormalized_derivatives = h[..., 2 * self.num_bins:]` (length
`num_bins - 1`, not rescaled). -/
noncomputable def convFlowDerivs {b t half fc K n numBins : ℕ}
    (P : ConvFlowParams half fc K n numBins) (x0 : Tensor b half t)
    (xm : Mask b t) (g : Option (Tensor b fc t)) :
    Fin b → Fin half → Fin t → Fin (numBins - 1) → ℝ :=
  fun i j k q =>
    convFlowH P x0 xm g i j k ⟨2 * numBins + q.val, by have hq := q.isLt; omega⟩

/-- The elementwise spline call of `ConvFlow.forward`:
`piecewise_rational_quadratic_transform(x1, unnormalized_widths,
unnormalized_heights, unnormalized_derivatives, inverse=reverse,
tails='linear', tail_bound=self.tail_bound)`, returning the transformed
value and the `logabsdet` at each (batch, channel, time) position. -/
noncomputable def convFlowSpline {b t half fc K n numBins : ℕ}
    (S : SplineKernel numBins) (tailBound : ℝ) (inverse : Bool)
    (P : ConvFlowParams half fc K n numBins) (x0 x1 : Tensor b half t)
    (xm : Mask b t) (g : Option (Tensor b fc t)) :
    Fin b → Fin half → Fin t → ℝ × ℝ :=
  fun i j k =>
    (if inverse then S.inv else S.fwd) (convFlowWidths P x0 xm g i j k)
      (convFlowHeights P x0 xm g i j k) (convFlowDerivs P x0 xm g i j k)
      tailBound (x1 i j k)

/-- `ConvFlow.forward` with `reverse=False`: split, predict parameters from
`x0`, transform `x1` by the spline, then
`x = torch.cat([x0, x1], 1) * x_mask` and
`logdet = torch.sum(logabsdet * x_mask, [1,2])`. -/
noncomputable def convFlowForward {b t half fc K n numBins : ℕ}
    (P : ConvFlowParams half fc K n numBins) (S : SplineKernel numBins)
    (tailBound : ℝ) (x : Tensor b (half + half) t) (xm : Mask b t)
    (g : Option (Tensor b fc t)) :
    Tensor b (half + half) t × (Fin b → ℝ) :=
  let res := convFlowSpline S tailBound false P (splitLo x) (splitHi x) xm g
  (applyMask (catChannels (splitLo x) (fun i j k => (res i j k).1)) xm,
   fun i => ∑ j, ∑ k, (res i j k).2 * xm i k)

/-- `ConvFlow.forward` with `reverse=True`: as the forward direction but the
spline runs in inverse mode and only the tensor is returned. -/
noncomputable def convFlowReverse {b t half fc K n numBins : ℕ}
    (P : ConvFlowParams half fc K n numBins) (S : SplineKernel numBins)
    (tailBound : ℝ) (x : Tensor b (half + half) t) (xm : Mask b t)
    (g : Option (Tensor b fc t)) : Tensor b (half + half) t :=
  let res := convFlowSpline S tailBound true P (splitLo x) (splitHi x) xm g
  applyMask (catChannels (splitLo x) (fun i j k => (res i j k).1)) xm

/-- `ConvFlow.__init__`: `pre` and `convs` receive the default torch
initialization (arbitrary here), while
`self.proj.weight.data.zero_(); self.proj.bias.data.zero_()` zero the final
projection. -/
def convFlowInit {half fc K n numBins : ℕ} (preW : Fin fc → Fin half → ℝ)
    (preB : Fin fc → ℝ) (convs : DDSConvParams fc K n) :
    ConvFlowParams half fc K n numBins :=
  ⟨preW, preB, convs, fun _ _ => 0, fun _ => 0⟩

/-- `ConvFlow.forward` on a tensor of arbitrary channel count `c`:
`torch.split(x, [self.half_channels]*2, 1)` checks that the section sizes
sum to `x.size(1)` and raises otherwise, before anything is computed from
the data; `half_channels = in_channels // 2`. -/
noncomputable def convFlowForwardChecked {b c t fc K n numBins : ℕ}
    (in_channels : ℕ) (P : ConvFlowParams (in_channels / 2) fc K n numBins)
    (S : SplineKernel numBins) (tailBound : ℝ) (x : Tensor b c t)
    (xm : Mask b t) (g : Option (Tensor b fc t)) :
    Option (Tensor b c t × (Fin b → ℝ)) :=
  if h : in_channels / 2 + in_channels / 2 = c then
    let r := convFlowForward P S tailBound
      (fun i j k => x i (Fin.cast h j) k) xm g
    some (fun i j k => r.1 i (Fin.cast h.symm j) k, r.2)
  else none

/-! ### Helper lemmas -/

theorem catChannels_castAdd {b t c1 c2 : ℕ} (x : Tensor b c1 t)
    (y : Tensor b c2 t) (i : Fin b) (j : Fin c1) (k : Fin t) :
    catChannels x y i (Fin.castAdd c2 j) k = x i j k := by
  have hlt : ((Fin.castAdd c2 j : Fin (c1 + c2)) : ℕ) < c1 := j.isLt
  simp only [catChannels]
  rw [dif_pos hlt]
  rfl

theorem catChannels_natAdd {b t c1 c2 : ℕ} (x : Tensor b c1 t)
    (y : Tensor b c2 t) (i : Fin b) (j : Fin c2) (k : Fin t) :
    catChannels x y i (Fin.natAdd c1 j) k = y i j k := by
  have hge : ¬ ((Fin.natAdd c1 j : Fin (c1 + c2)) : ℕ) < c1 := by
    simp [Fin.natAdd]
  simp only [catChannels]
  rw [dif_neg hge]
  congr 1
  ext
  simp [Fin.natAdd]

/-! ### Claim theorems -/

/-- C3: for every input tensor `x` and every mask, the logdet returned by
`ElementwiseAffine` in forward mode equals the sum of `logs * mask` over
the channel and time axes (a per-batch-example scalar), and does not depend
on the values of `x`. -/
theorem ea_forward_logdet_eq_sum_logs_mask {b c t : ℕ} (p : EAParams c)
    (x : Tensor b c t) (xm : Mask b t) :
    ((eaForward p x xm).2 =
        fun i => ∑ j : Fin c, ∑ k : Fin t, p.logs j * xm i k) ∧
      ∀ y : Tensor b c t, (eaForward p x xm).2 = (eaForward p y xm).2 :=
  ⟨rfl, fun _ => rfl⟩

/-- C5: in forward mode `Log` computes
`log(clamp_min(x, 1e-5)) * x_mask`; on an all-ones input with an all-ones
mask the output is all zeros and the logdet is `0` for every batch
example. -/
theorem log_forward_clamp_and_ones {b c t : ℕ} :
    (∀ (x : Tensor b c t) (xm : Mask b t) (i : Fin b) (j : Fin c) (k : Fin t),
        (logForward x xm).1 i j k = Real.log (max (x i j k) 1e-5) * xm i k) ∧
      (∀ (i : Fin b) (j : Fin c) (k : Fin t),
        (logForward (onesTensor b c t) (onesMask b t)).1 i j k = 0) ∧
      ∀ i : Fin b, (logForward (onesTensor b c t) (onesMask b t)).2 i = 0 := by
  have hlog : Real.log (max (1 : ℝ) 1e-5) = 0 := by
    rw [max_eq_left (by norm_num : (1e-5 : ℝ) ≤ 1), Real.log_one]
  refine ⟨fun x xm i j k => rfl, fun i j k => ?_, fun i => ?_⟩
  · show Real.log (max (1 : ℝ) 1e-5) * 1 = 0
    rw [hlog, zero_mul]
  · show (∑ j : Fin c, ∑ k : Fin t, -(Real.log (max (1 : ℝ) 1e-5) * 1)) = 0
    simp [hlog]

/-- C6: applying `Flip` twice returns `x` exactly, and the forward-mode
logdet of `Flip` is the zero vector of length `batch`. -/
theorem flip_self_inverse_and_zero_logdet {b c t : ℕ} (x : Tensor b c t) :
    flipReverse (flipForward x).1 = x ∧
      (flipForward x).2 = fun _ : Fin b => 0 := by
  refine ⟨?_, rfl⟩
  funext i j k
  show x i (Fin.rev (Fin.rev j)) k = x i j k
  rw [Fin.rev_rev]

/-- C7: layer `i` of a `DDSConv` uses dilation `kernel_size ^ i` and padding
`dilation * (kernel_size - 1) / 2`; for `kernel_size=3`, `n_layers=2` the
dilation schedule is `[1, 3]` and the padding schedule is `[1, 3]`. -/
theorem dds_conv_dilation_padding_schedule :
    (∀ kernel_size i : ℕ,
        ddsDilation kernel_size i = kernel_size ^ i ∧
          ddsPadding kernel_size i = kernel_size ^ i * (kernel_size - 1) / 2) ∧
      (List.range 2).map (ddsDilation 3) = [1, 3] ∧
      (List.range 2).map (ddsPadding 3) = [1, 3] :=
  ⟨fun _ _ => ⟨rfl, rfl⟩, by decide, by decide⟩

/-- C9: `DSResBlock.forward` ignores the mask it is given: for every mask
argument its output is the unmasked (`x_mask=None`) output of its inner
`DDSConv`. -/
theorem ds_res_block_ignores_mask {b c t K : ℕ} (P : DSResBlockParams c K)
    (x : Tensor b c t) :
    ∀ xm : Option (Mask b t),
      dsResBlockForward P x xm = ddsConvForward P.dds_conv x none none :=
  fun _ => rfl

theorem convFlowH_init_zero {b t half fc K n numBins : ℕ}
    (preW : Fin fc → Fin half → ℝ) (preB : Fin fc → ℝ)
    (convs : DDSConvParams fc K n) (x0 : Tensor b half t) (xm : Mask b t)
    (g : Option (Tensor b fc t)) (i : Fin b) (j : Fin half) (k : Fin t)
    (p : Fin (numBins * 3 - 1)) :
    convFlowH (convFlowInit preW preB convs) x0 xm g i j k p = 0 := by
  simp [convFlowH, convFlowInit, applyMask, conv1x1]

/-- C10: `ConvFlow.__init__` zero-initializes the weight and bias of the
final projection convolution, so a freshly constructed `ConvFlow` predicts
all-zero unnormalized spline widths, heights and derivatives for every
input `x0`, mask and conditioning. -/
theorem conv_flow_init_zero_spline_params {b t half fc K n numBins : ℕ}
    (preW : Fin fc → Fin half → ℝ) (preB : Fin fc → ℝ)
    (convs : DDSConvParams fc K n) (x0 : Tensor b half t) (xm : Mask b t)
    (g : Option (Tensor b fc t)) (i : Fin b) (j : Fin half) (k : Fin t) :
    (∀ q : Fin numBins,
        convFlowWidths (convFlowInit preW preB convs) x0 xm g i j k q = 0) ∧
      (∀ q : Fin numBins,
        convFlowHeights (convFlowInit preW preB convs) x0 xm g i j k q = 0) ∧
      ∀ q : Fin (numBins - 1),
        convFlowDerivs (convFlowInit preW preB convs) x0 xm g i j k q = 0 := by
  refine ⟨fun q => ?_, fun q => ?_, fun q => ?_⟩ <;>
    simp [convFlowWidths, convFlowHeights, convFlowDerivs, convFlowH_init_zero]

/-- C4 counterexample: the specification's inverse formula
`x = (y/mask − m)·exp(−logs)·mask` is undefined (division by zero) at a
padded position, while the source (`(x - m) * exp(-logs) * x_mask`, no
division) returns a defined value there, so the two do not agree. -/
theorem ea_reverse_divides_by_mask_counterexample :
    eaReverseSpec ⟨fun _ => 0, fun _ => 0⟩ (onesTensor 1 1 1)
        (fun _ _ => 0) 0 0 0 ≠
      some (eaReverse ⟨fun _ => 0, fun _ => 0⟩ (onesTensor 1 1 1)
        (fun _ _ => 0) 0 0 0) := by
  simp [eaReverseSpec]

/-- C4 (amended): in reverse mode `ElementwiseAffine` computes
`x = (y − m)·exp(−logs)·mask` — it never divides by the mask — and the
final multiply-by-mask makes every padded (`mask = 0`) position exactly
zero. -/
theorem ea_reverse_formula_no_mask_division {b c t : ℕ} (p : EAParams c)
    (x : Tensor b c t) (xm : Mask b t) :
    (∀ i j k, eaReverse p x xm i j k =
        (x i j k - p.m j) * Real.exp (-p.logs j) * xm i k) ∧
      ∀ i j k, xm i k = 0 → eaReverse p x xm i j k = 0 := by
  refine ⟨fun _ _ _ => rfl, fun i j k h => ?_⟩
  show (x i j k - p.m j) * Real.exp (-p.logs j) * xm i k = 0
  rw [h, mul_zero]

/-- Witness for the amended C4 at a concrete padded input. -/
theorem ea_reverse_formula_no_mask_division_witness :
    eaReverse ⟨fun _ => 0, fun _ => 0⟩ (onesTensor 1 1 1) (fun _ _ => 0)
        0 0 0 = 0 :=
  (ea_reverse_formula_no_mask_division ⟨fun _ => 0, fun _ => 0⟩
    (onesTensor 1 1 1) (fun _ _ => 0)).2 0 0 0 rfl

/-- C2 counterexample: with a mask that is `0` at some position, the first
half of `ConvFlow`'s output does NOT equal the first half of its input
there: the output is `x0 * mask = 0` while the input is `5`. -/
theorem conv_flow_first_half_counterexample :
    (convFlowForward
          (⟨fun _ _ => 0, fun _ => 0, ⟨Fin.elim0⟩, fun _ _ => 0, fun _ => 0⟩ :
            ConvFlowParams 1 1 1 0 1)
          ⟨fun _ _ _ _ v => (v, 0), fun _ _ _ _ v => (v, 0)⟩ 5
          (fun _ _ _ => 5 : Tensor 1 (1 + 1) 1) (fun _ _ => 0) none).1
        0 (Fin.castAdd 1 0) 0 ≠
      (fun _ _ _ => 5 : Tensor 1 (1 + 1) 1) 0 (Fin.castAdd 1 0) 0 := by
  simp only [convFlowForward, applyMask, catChannels_castAdd]
  norm_num

/-- C2 (amended): in both forward and reverse mode, the first half of
`ConvFlow`'s output equals the first half of its input multiplied by the
mask (so it equals the input's first half exactly wherever the mask is 1 —
e.g. for an all-ones mask); the spline and parameter networks never touch
it. -/
theorem conv_flow_first_half_passthrough {b t half fc K n numBins : ℕ}
    (P : ConvFlowParams half fc K n numBins) (S : SplineKernel numBins)
    (tailBound : ℝ) (x : Tensor b (half + half) t) (xm : Mask b t)
    (g : Option (Tensor b fc t)) (i : Fin b) (j : Fin half) (k : Fin t) :
    (convFlowForward P S tailBound x xm g).1 i (Fin.castAdd half j) k =
        x i (Fin.castAdd half j) k * xm i k ∧
      convFlowReverse P S tailBound x xm g i (Fin.castAdd half j) k =
        x i (Fin.castAdd half j) k * xm i k := by
  constructor <;>
  · simp only [convFlowForward, convFlowReverse, applyMask]
    rw [catChannels_castAdd]
    rfl

/-- C8: when `ConvFlow` is given an input whose channel count `in_channels`
is not divisible by 2, `torch.split(x, [half_channels]*2, 1)` fails (the
section sizes `in_channels//2 + in_channels//2` no longer cover the channel
axis) before anything is computed from the data, and channels are never
silently truncated. -/
theorem conv_flow_odd_channels_fails {b t fc K n numBins : ℕ}
    (in_channels : ℕ) (hodd : ¬ 2 ∣ in_channels)
    (P : ConvFlowParams (in_channels / 2) fc K n numBins)
    (S : SplineKernel numBins) (tailBound : ℝ) (x : Tensor b in_channels t)
    (xm : Mask b t) (g : Option (Tensor b fc t)) :
    convFlowForwardChecked in_channels P S tailBound x xm g = none := by
  have hne : ¬ (in_channels / 2 + in_channels / 2 = in_channels) := by omega
  simp [convFlowForwardChecked, hne]

/-- Witness for C8 at `in_channels = 3`. -/
theorem conv_flow_odd_channels_fails_witness :
    convFlowForwardChecked 3
        (⟨fun _ _ => 0, fun _ => 0, ⟨Fin.elim0⟩, fun _ _ => 0, fun _ => 0⟩ :
          ConvFlowParams (3 / 2) 1 1 0 1)
        ⟨fun _ _ _ _ v => (v, 0), fun _ _ _ _ v => (v, 0)⟩ 5
        (fun _ _ _ => 0 : Tensor 1 3 1) (fun _ _ => 0) none = none :=
  conv_flow_odd_channels_fails 3 (by decide) _ _ _ _ _ _

theorem convFlowSpline_true_apply {b t half fc K n numBins : ℕ}
    (S : SplineKernel numBins) (tailBound : ℝ)
    (P : ConvFlowParams half fc K n numBins) (x0 x1 : Tensor b half t)
    (xm : Mask b t) (g : Option (Tensor b fc t)) (i : Fin b) (j : Fin half)
    (k : Fin t) :
    convFlowSpline S tailBound true P x0 x1 xm g i j k =
      S.inv (convFlowWidths P x0 xm g i j k)
        (convFlowHeights P x0 xm g i j k) (convFlowDerivs P x0 xm g i j k)
        tailBound (x1 i j k) :=
  rfl

/-- C1 counterexample: for the `ElementwiseAffine` variant with `m = 0`,
`logs = 0`, the input `x = [1, 3]` and the valid `{0,1}` mask `[1, 0]`, the
round trip `inverse(forward(x, mask))` reconstructs `0` at the padded
position instead of `3`, an error of `3`, far beyond the `1e-4`
floating-point tolerance. -/
theorem flow_round_trip_counterexample :
    ¬ |eaReverse ⟨fun _ => 0, fun _ => 0⟩
          (eaForward ⟨fun _ => 0, fun _ => 0⟩
            (fun _ _ => ![1, 3] : Tensor 1 1 2) (fun _ => ![1, 0])).1
          (fun _ => ![1, 0]) 0 0 1 -
        (fun _ _ => ![1, 3] : Tensor 1 1 2) 0 0 1| < 1e-4 := by
  have h : eaReverse ⟨fun _ => 0, fun _ => 0⟩
      (eaForward ⟨fun _ => 0, fun _ => 0⟩
        (fun _ _ => ![1, 3] : Tensor 1 1 2) (fun _ => ![1, 0])).1
      (fun _ => ![1, 0]) 0 0 1 = 0 := by
    show (_ - _) * Real.exp (-(0:ℝ)) * (![1, 0] : Fin 2 → ℝ) 1 = 0
    simp
  rw [h]
  show ¬ |(0:ℝ) - (![1, 3] : Fin 2 → ℝ) 1| < 1e-4
  norm_num

/-- C1 (amended): for every bijective transform variant, if the mask is
`{0,1}`-valued and the input is compatible with it (`x * mask = x`, i.e.
padded positions carry zeros) — and, for `Log`, the input is at least the
clamp floor `1e-5` at unpadded positions — then applying the transform in
reverse mode to the forward-mode output reconstructs `x` exactly in real
arithmetic: `Log`, `ElementwiseAffine`, `Flip` (unconditionally, for every
input), and `ConvFlow` whenever the external spline kernel inverts its own
forward map. -/
theorem flow_reverse_of_forward_reconstructs :
    (∀ (b c t : ℕ) (x : Tensor b c t) (xm : Mask b t),
        (∀ i k, xm i k = 0 ∨ xm i k = 1) →
        (∀ i j k, x i j k * xm i k = x i j k) →
        (∀ i j k, xm i k ≠ 0 → 1e-5 ≤ x i j k) →
        logReverse (logForward x xm).1 xm = x) ∧
      (∀ (b c t : ℕ) (p : EAParams c) (x : Tensor b c t) (xm : Mask b t),
        (∀ i k, xm i k = 0 ∨ xm i k = 1) →
        (∀ i j k, x i j k * xm i k = x i j k) →
        eaReverse p (eaForward p x xm).1 xm = x) ∧
      (∀ (b c t : ℕ) (x : Tensor b c t), flipReverse (flipForward x).1 = x) ∧
      ∀ (b t half fc K n numBins : ℕ)
        (P : ConvFlowParams half fc K n numBins) (S : SplineKernel numBins)
        (tailBound : ℝ) (x : Tensor b (half + half) t) (xm : Mask b t)
        (g : Option (Tensor b fc t)),
        (∀ i k, xm i k = 0 ∨ xm i k = 1) →
        (∀ i j k, x i j k * xm i k = x i j k) →
        (∀ w hh d v,
          (S.inv w hh d tailBound (S.fwd w hh d tailBound v).1).1 = v) →
        convFlowReverse P S tailBound
          (convFlowForward P S tailBound x xm g).1 xm g = x := by
  refine ⟨?_, ?_, ?_, ?_⟩
  · intro b c t x xm hbin hcompat hlow
    funext i j k
    show Real.exp (Real.log (max (x i j k) 1e-5) * xm i k) * xm i k = x i j k
    rcases hbin i k with h0 | h1
    · have hx0 : x i j k = 0 := by
        have h := hcompat i j k
        rwa [h0, mul_zero, eq_comm] at h
      rw [h0, hx0]
      simp
    · have hx : (1e-5 : ℝ) ≤ x i j k := hlow i j k (by rw [h1]; norm_num)
      rw [h1, mul_one, mul_one, max_eq_left hx]
      exact Real.exp_log (lt_of_lt_of_le (by norm_num) hx)
  · intro b c t p x xm hbin hcompat
    funext i j k
    show ((p.m j + Real.exp (p.logs j) * x i j k) * xm i k - p.m j) *
        Real.exp (-p.logs j) * xm i k = x i j k
    rcases hbin i k with h0 | h1
    · have hx0 : x i j k = 0 := by
        have h := hcompat i j k
        rwa [h0, mul_zero, eq_comm] at h
      rw [h0, hx0, mul_zero]
    · rw [h1, mul_one, mul_one, add_sub_cancel_left,
        mul_comm (Real.exp (p.logs j)) (x i j k), mul_assoc, ← Real.exp_add]
      simp
  · intro b c t x
    funext i j k
    show x i (Fin.rev (Fin.rev j)) k = x i j k
    rw [Fin.rev_rev]
  · intro b t half fc K n numBins P S tailBound x xm g hbin hcompat hinv
    have hlo : splitLo (convFlowForward P S tailBound x xm g).1 = splitLo x := by
      funext i j k
      show (convFlowForward P S tailBound x xm g).1 i (Fin.castAdd half j) k =
        x i (Fin.castAdd half j) k
      simp only [convFlowForward, applyMask]
      rw [catChannels_castAdd]
      exact hcompat i (Fin.castAdd half j) k
    funext i j k
    simp only [convFlowReverse, applyMask]
    rw [hlo]
    rcases hbin i k with h0 | h1
    · rw [h0, mul_zero]
      have h := hcompat i j k
      rw [h0, mul_zero] at h
      exact h
    · rw [h1, mul_one]
      refine Fin.addCases ?_ ?_ j
      · intro jl
        rw [catChannels_castAdd]
        rfl
      · intro jr
        rw [catChannels_natAdd]
        have hhi : splitHi (convFlowForward P S tailBound x xm g).1 i jr k =
            (S.fwd (convFlowWidths P (splitLo x) xm g i jr k)
              (convFlowHeights P (splitLo x) xm g i jr k)
              (convFlowDerivs P (splitLo x) xm g i jr k) tailBound
              (splitHi x i jr k)).1 := by
          show (convFlowForward P S tailBound x xm g).1 i
            (Fin.natAdd half jr) k = _
          simp only [convFlowForward, applyMask]
          rw [catChannels_natAdd, h1, mul_one]
          rfl
        show (convFlowSpline S tailBound true P (splitLo x)
          (splitHi (convFlowForward P S tailBound x xm g).1) xm g i jr k).1 =
          x i (Fin.natAdd half jr) k
        rw [convFlowSpline_true_apply, hhi]
        exact hinv _ _ _ _

/-- Witness for the amended C1: the round trip at concrete all-ones inputs
with an all-ones mask, for all four variants (`ConvFlow` instantiated with
zero parameters and the identity spline kernel). -/
theorem flow_reverse_of_forward_reconstructs_witness :
    (logReverse (logForward (onesTensor 1 1 1) (onesMask 1 1)).1
        (onesMask 1 1) = onesTensor 1 1 1) ∧
      (eaReverse ⟨fun _ => 1, fun _ => 1⟩
          (eaForward ⟨fun _ => 1, fun _ => 1⟩ (onesTensor 1 1 1)
            (onesMask 1 1)).1 (onesMask 1 1) = onesTensor 1 1 1) ∧
      (flipReverse (flipForward (onesTensor 1 1 1)).1 = onesTensor 1 1 1) ∧
      convFlowReverse
          (⟨fun _ _ => 0, fun _ => 0, ⟨Fin.elim0⟩, fun _ _ => 0, fun _ => 0⟩ :
            ConvFlowParams 1 1 1 0 1)
          ⟨fun _ _ _ _ v => (v, 0), fun _ _ _ _ v => (v, 0)⟩ 5
          (convFlowForward
            (⟨fun _ _ => 0, fun _ => 0, ⟨Fin.elim0⟩, fun _ _ => 0, fun _ => 0⟩ :
              ConvFlowParams 1 1 1 0 1)
            ⟨fun _ _ _ _ v => (v, 0), fun _ _ _ _ v => (v, 0)⟩ 5
            (onesTensor 1 (1 + 1) 1) (onesMask 1 1) none).1
          (onesMask 1 1) none = onesTensor 1 (1 + 1) 1 := by
  have h := flow_reverse_of_forward_reconstructs
  exact ⟨h.1 1 1 1 (onesTensor 1 1 1) (onesMask 1 1)
      (fun i k => Or.inr rfl) (fun i j k => mul_one 1)
      (fun i j k _ => by norm_num [onesTensor]),
    h.2.1 1 1 1 ⟨fun _ => 1, fun _ => 1⟩ (onesTensor 1 1 1) (onesMask 1 1)
      (fun i k => Or.inr rfl) (fun i j k => mul_one 1),
    h.2.2.1 1 1 1 (onesTensor 1 1 1),
    h.2.2.2 1 1 1 1 1 0 1 _ _ 5 (onesTensor 1 (1 + 1) 1) (onesMask 1 1) none
      (fun i k => Or.inr rfl) (fun i j k => mul_one 1)
      (fun w hh d v => rfl)⟩
